import Mathlib

/-!
Verification of the hush_fm coordination core.

The definitions below are shallow embeddings of the Python source:
`src/main.py` (the aiortc-based server: `PausableAudioTrack`, `Room`,
`SilentDiscoServer` handlers) and `src/server/api.py` together with
`src/server/state.py` (the LiveKit-based API: `rooms`/`clients` dicts and
the HTTP handlers).  Python dicts are modelled as insertion-ordered
association lists; `time.time()` values as rationals; frames as records of
their pts and sample count.
-/

namespace HushFm

/-! ### Association-list model of Python dicts (insertion ordered) -/

/-- First value bound to key `k`, like `d.get(k)` / `d[k]`. -/
def lookupKey (k : String) : List (String × α) → Option α
  | [] => none
  | (k', v) :: rest => if k' = k then some v else lookupKey k rest

/-- `d[k] = v`: replace in place if the key exists, else append (Python
dicts preserve insertion order). -/
def setKey (k : String) (v : α) : List (String × α) → List (String × α)
  | [] => [(k, v)]
  | (k', v') :: rest => if k' = k then (k, v) :: rest else (k', v') :: setKey k v rest

/-- `del d[k]`: remove the first binding of `k`. -/
def eraseKey (k : String) : List (String × α) → List (String × α)
  | [] => []
  | (k', v') :: rest => if k' = k then rest else (k', v') :: eraseKey k rest

/-- `k in d`. -/
def containsKey (k : String) (l : List (String × α)) : Bool :=
  (lookupKey k l).isSome

/-- Python `set.add`: idempotent insertion, modelled on a duplicate-free list. -/
def addSet (c : String) (l : List String) : List String :=
  if c ∈ l then l else l ++ [c]

/-! ### Shared playback engine (`PausableAudioTrack` in src/main.py)

A decoded/resampled audio frame is modelled by its presentation timestamp
(`pts`) and its sample count.  The remaining real frames of the source are
a list of sample counts.  `recv` mirrors `PausableAudioTrack.recv`: when
paused it emits a 960-sample silence frame; otherwise it emits the next
real frame if one remains, and after end of source it logs the transition
once (the `_eof_logged` attribute) and emits 960-sample silence forever.
In every branch the emitted frame's `pts` is the current `_timestamp` and
the counter advances by exactly the emitted frame's sample count. -/

structure Frame where
  pts : Nat
  samples : Nat
  deriving DecidableEq, Repr

structure TrackState where
  paused : Bool
  timestamp : Nat
  source : List Nat
  eofLogged : Bool
  deriving DecidableEq, Repr

/-- A fresh `PausableAudioTrack`: `_is_paused = False`, `_timestamp = 0`,
no `_eof_logged` attribute. -/
def initTrack (src : List Nat) : TrackState :=
  { paused := false, timestamp := 0, source := src, eofLogged := false }

/-- `PausableAudioTrack.recv`: returns the emitted frame, whether this call
logged the end-of-source transition, and the successor state. -/
def recvFrame (s : TrackState) : Frame × Bool × TrackState :=
  if s.paused then
    (⟨s.timestamp, 960⟩, false, { s with timestamp := s.timestamp + 960 })
  else
    match s.source with
    | f :: rest =>
        (⟨s.timestamp, f⟩, false,
         { s with timestamp := s.timestamp + f, source := rest })
    | [] =>
        (⟨s.timestamp, 960⟩, !s.eofLogged,
         { s with timestamp := s.timestamp + 960, eofLogged := true })

/-- `PausableAudioTrack.set_paused`. -/
def setTrackPaused (b : Bool) (s : TrackState) : TrackState :=
  { s with paused := b }

inductive TrackStep where
  | recv : TrackStep
  | pauseCmd : Bool → TrackStep
  deriving DecidableEq, Repr

/-- Frames emitted by an interleaving of `recv` and `set_paused` calls. -/
def runTrack : TrackState → List TrackStep → List Frame
  | _, [] => []
  | s, TrackStep.recv :: rest =>
      (recvFrame s).1 :: runTrack (recvFrame s).2.2 rest
  | s, TrackStep.pauseCmd b :: rest => runTrack (setTrackPaused b s) rest

/-- The frame sequence carries a running counter starting at `t`: each
frame's pts equals the counter, which then advances by that frame's
sample count. -/
def chainedFrom : Nat → List Frame → Bool
  | _, [] => true
  | t, f :: fs => (f.pts == t) && chainedFrom (t + f.samples) fs

/-- `n` consecutive `recv` calls: emitted frames, how many of them logged
the end-of-source transition, and the final state. -/
def recvN : Nat → TrackState → List Frame × Nat × TrackState
  | 0, s => ([], 0, s)
  | n + 1, s =>
      let r := recvFrame s
      let rest := recvN n r.2.2
      (r.1 :: rest.1, (if r.2.1 then 1 else 0) + rest.2.1, rest.2.2)

/-- Per-room playback state in `src/main.py`: `Room.is_playing` plus the
shared `Room.audio_track`.  Pulling a frame (`recv`) touches only the
track; `is_playing` is written only by the play/pause/resume handlers. -/
structure MainPlayback where
  is_playing : Bool
  track : TrackState
  deriving DecidableEq, Repr

/-- A frame pull on the room's shared track (the consumer-side `recv`). -/
def playbackRecv (r : MainPlayback) : Frame × Bool × MainPlayback :=
  let x := recvFrame r.track
  (x.1, x.2.1, { r with track := x.2.2 })

/-- `_handle_pause_audio` effect on playback state. -/
def playbackPause (r : MainPlayback) : MainPlayback :=
  { r with is_playing := false, track := setTrackPaused true r.track }

/-- `_handle_resume_audio` effect on playback state. -/
def playbackResume (r : MainPlayback) : MainPlayback :=
  { r with is_playing := true, track := setTrackPaused false r.track }

/-! ### LiveKit-based API server (src/server/state.py + src/server/api.py)

`rooms : room_id -> {name, dj_client, listeners: set, last_seen_dj: float}`
and `clients : client_id -> {name, room_id, role, last_seen: float}` are
module-level dicts.  Times are rationals standing for `time.time()` floats.
Randomly generated ids (`generate_room_id`, `generate_client_id`) are
passed in as explicit arguments to keep the functions deterministic. -/

structure SRoom where
  name : String
  dj_client : Option String
  listeners : List String
  last_seen_dj : Rat
  deriving DecidableEq, Repr

structure SClient where
  name : String
  room_id : Option String
  role : Option String
  last_seen : Rat
  deriving DecidableEq, Repr

structure SState where
  rooms : List (String × SRoom)
  clients : List (String × SClient)
  deriving DecidableEq, Repr

/-- Python `x or default` for the optional string fields of a JSON body. -/
def pyStrOr (x : Option String) (default : String) : String :=
  match x with
  | some s => if s = "" then default else s
  | none => default

inductive IdentifyResp where
  | ok : String → String → IdentifyResp
  deriving DecidableEq, Repr

/-- `api_identify`: reuse `client_id` when it is supplied, truthy and known;
otherwise create a fresh client.  Never touches `rooms`. -/
def apiIdentify (s : SState) (reuse_id : Option String) (reqName : Option String)
    (freshId genName : String) (now : Rat) : IdentifyResp × SState :=
  match reuse_id with
  | some rid =>
      if rid ≠ "" then
        match lookupKey rid s.clients with
        | some c =>
            (IdentifyResp.ok rid c.name,
             { s with clients := setKey rid { c with last_seen := now } s.clients })
        | none =>
            let name := pyStrOr reqName genName
            (IdentifyResp.ok freshId name,
             { s with clients :=
                setKey freshId ⟨name, none, none, now⟩ s.clients })
      else
        let name := pyStrOr reqName genName
        (IdentifyResp.ok freshId name,
         { s with clients := setKey freshId ⟨name, none, none, now⟩ s.clients })
  | none =>
      let name := pyStrOr reqName genName
      (IdentifyResp.ok freshId name,
       { s with clients := setKey freshId ⟨name, none, none, now⟩ s.clients })

inductive CreateResp where
  | ok : String → Bool → CreateResp
  | unknownClient : CreateResp
  deriving DecidableEq, Repr

/-- The room record `api_room_create` installs for a fresh room. -/
def createdRoom (name : Option String) (cid : String) (now : Rat) : SRoom :=
  ⟨pyStrOr name "My Disco", some cid, [], now⟩

/-- Update a known client's `room_id`/`role` in place, as the handlers do. -/
def updClientRole (cid rid role : String) (clients : List (String × SClient)) :
    List (String × SClient) :=
  match lookupKey cid clients with
  | some c => setKey cid { c with room_id := some rid, role := some role } clients
  | none => clients

/-- `api_room_create`: 400 for an unknown client; reuse the first room whose
`dj_client` is this client (`existing = true`); else install a fresh room
with this client as DJ, an empty listener set and `last_seen_dj = now`. -/
def apiRoomCreate (s : SState) (cid : String) (name : Option String)
    (freshId : String) (now : Rat) : CreateResp × SState :=
  if (lookupKey cid s.clients).isSome then
    match s.rooms.find? (fun p => decide (p.2.dj_client = some cid)) with
    | some p =>
        (CreateResp.ok p.1 true,
         { s with clients := updClientRole cid p.1 "dj" s.clients })
    | none =>
        (CreateResp.ok freshId false,
         { rooms := setKey freshId (createdRoom name cid now) s.rooms,
           clients := updClientRole cid freshId "dj" s.clients })
  else
    (CreateResp.unknownClient, s)

inductive JoinResp where
  | ok : String → JoinResp
  | unknownClient : JoinResp
  | unknownRoom : JoinResp
  | djConflict : JoinResp
  deriving DecidableEq, Repr

/-- Update a known client's `room_id`/`role`/`last_seen` after a join. -/
def updClientJoin (cid rid role : String) (now : Rat)
    (clients : List (String × SClient)) : List (String × SClient) :=
  match lookupKey cid clients with
  | some c =>
      setKey cid
        { c with room_id := some rid, role := some role, last_seen := now } clients
  | none => clients

/-- `api_room_join`: unknown client → 400; unknown room → 404; `role = "dj"`
succeeds only when the room's `dj_client` is `None` or already this client
(409 `room already has a DJ` otherwise); any other role adds the client to
the room's listener set. -/
def apiRoomJoin (s : SState) (rid cid role : String) (now : Rat) :
    JoinResp × SState :=
  if (lookupKey cid s.clients).isSome then
    match lookupKey rid s.rooms with
    | none => (JoinResp.unknownRoom, s)
    | some room =>
        if role = "dj" then
          if room.dj_client = none ∨ room.dj_client = some cid then
            (JoinResp.ok room.name,
             { rooms :=
                setKey rid { room with dj_client := some cid, last_seen_dj := now }
                  s.rooms,
               clients := updClientJoin cid rid role now s.clients })
          else
            (JoinResp.djConflict, s)
        else
          (JoinResp.ok room.name,
           { rooms :=
              setKey rid { room with listeners := addSet cid room.listeners } s.rooms,
             clients := updClientJoin cid rid role now s.clients })
  else
    (JoinResp.unknownClient, s)

inductive CloseResp where
  | ok : CloseResp
  | notFound : CloseResp
  | unknownClient : CloseResp
  | forbidden : CloseResp
  deriving DecidableEq, Repr

/-- Observable side effects of `api_room_close`, in program order. -/
inductive SEvent where
  | deleteRoom : String → SEvent
  | roomsUpdate : SEvent
  | roomClosed : String → String → SEvent
  deriving DecidableEq, Repr

def SEvent.isRoomClosed : SEvent → Bool
  | roomClosed _ _ => true
  | _ => false

/-- `api_room_close`: 404 unknown room, 400 unknown client, 403 when the
requester is not the room's DJ; on success `del rooms[room_id]` happens
first and the directory-level rooms-list broadcast second.  No
`room_closed` event to room members exists in the source. -/
def apiRoomClose (s : SState) (rid cid : String) :
    CloseResp × SState × List SEvent :=
  match lookupKey rid s.rooms with
  | none => (CloseResp.notFound, s, [])
  | some room =>
      if (lookupKey cid s.clients).isSome then
        if room.dj_client = some cid then
          (CloseResp.ok, { s with rooms := eraseKey rid s.rooms },
           [SEvent.deleteRoom rid, SEvent.roomsUpdate])
        else
          (CloseResp.forbidden, s, [])
      else
        (CloseResp.unknownClient, s, [])

/-- `api_presence`: refresh the client's `last_seen` when the client is
known, and set the room's `last_seen_dj` whenever the room exists and the
claimed role is `"dj"` — the handler never compares the heartbeating
client against the room's `dj_client`.  Always answers `{ok: true}`. -/
def apiPresence (s : SState) (cid rid role : String) (now : Rat) : SState :=
  let clients' :=
    match lookupKey cid s.clients with
    | some c => setKey cid { c with last_seen := now } s.clients
    | none => s.clients
  let rooms' :=
    match lookupKey rid s.rooms with
    | some room =>
        if role = "dj" then
          setKey rid { room with last_seen_dj := now } s.rooms
        else
          s.rooms
    | none => s.rooms
  { rooms := rooms', clients := clients' }

/-- `bool(last_seen_dj and (now - last_seen_dj) < 35.0)`: Python truthiness
makes a zero timestamp read as offline. -/
def pyDjOnline (now last_seen_dj : Rat) : Bool :=
  if last_seen_dj = 0 then false else decide (now - last_seen_dj < 35)

structure RoomSummary where
  id : String
  name : String
  dj_client : Option String
  dj_name : Option String
  listener_count : Nat
  dj_online : Bool
  deriving DecidableEq, Repr

/-- One item of `get_rooms_data`. -/
def summarize (clients : List (String × SClient)) (now : Rat)
    (p : String × SRoom) : RoomSummary :=
  { id := p.1,
    name := p.2.name,
    dj_client := p.2.dj_client,
    dj_name := p.2.dj_client.bind (fun d => (lookupKey d clients).map (·.name)),
    listener_count := p.2.listeners.length,
    dj_online := pyDjOnline now p.2.last_seen_dj }

/-- `get_rooms_data`: the room list served over HTTP and WebSocket. -/
def getRoomsData (s : SState) (now : Rat) : List RoomSummary :=
  s.rooms.map (summarize s.clients now)

/-- `api_dj_presence`: `last_seen_dj := now` when online, `0` when offline. -/
def apiDjPresence (s : SState) (rid : String) (is_online : Bool) (now : Rat) :
    Bool × SState :=
  match lookupKey rid s.rooms with
  | none => (false, s)
  | some room =>
      let room' : SRoom := { room with last_seen_dj := if is_online then now else 0 }
      (true, { s with rooms := setKey rid room' s.rooms })

/-! ### aiortc-based server (src/main.py): rooms, capacity, ICE relay -/

/-- A `Client` entry of `Room.connected_clients` (only the fields the
capacity claims need). -/
structure MClient where
  user_fingerprint : String
  role : String
  deriving DecidableEq, Repr

/-- A `Room` of `src/main.py`; `max_capacity` defaults to 50 and is never
overridden by any caller. -/
structure MRoom where
  dj_fingerprint : String
  max_capacity : Nat
  connected_clients : List (String × MClient)
  deriving DecidableEq, Repr

/-- The room record `_handle_create_room` installs. -/
def mkMRoom (dj : String) : MRoom :=
  { dj_fingerprint := dj, max_capacity := 50, connected_clients := [] }

inductive MJoinResp where
  | ok : String → MJoinResp
  | notFound : MJoinResp
  | roomFull : MJoinResp
  deriving DecidableEq, Repr

/-- `_handle_join_room`: 404 unknown room; `'Room is full'` (400) when the
connected-client count has reached `max_capacity`; otherwise the client is
stored under its `client_id` with role `dj` iff its fingerprint matches the
room's `dj_fingerprint`. -/
def handleJoinRoom (rooms : List (String × MRoom)) (rid cid fp : String) :
    MJoinResp × List (String × MRoom) :=
  match lookupKey rid rooms with
  | none => (MJoinResp.notFound, rooms)
  | some room =>
      if room.max_capacity ≤ room.connected_clients.length then
        (MJoinResp.roomFull, rooms)
      else
        (MJoinResp.ok (if fp = room.dj_fingerprint then "dj" else "listener"),
         setKey rid
           { room with connected_clients :=
               (setKey cid
                 ⟨fp, if fp = room.dj_fingerprint then "dj" else "listener"⟩
                 room.connected_clients) }
           rooms)

/-- `_handle_leave_room` effect on the rooms map. -/
def handleLeaveRoom (rooms : List (String × MRoom)) (rid cid : String) :
    List (String × MRoom) :=
  match lookupKey rid rooms with
  | none => rooms
  | some room =>
      if containsKey cid room.connected_clients then
        setKey rid
          { room with connected_clients := eraseKey cid room.connected_clients } rooms
      else
        rooms

/-- Rooms maps reachable from the empty server state through the
create/join/leave/delete handlers of `SilentDiscoServer`. -/
inductive MReach : List (String × MRoom) → Prop where
  | start : MReach []
  | create (s : List (String × MRoom)) (rid dj : String) :
      MReach s → MReach (setKey rid (mkMRoom dj) s)
  | join (s : List (String × MRoom)) (rid cid fp : String) :
      MReach s → MReach (handleJoinRoom s rid cid fp).2
  | leave (s : List (String × MRoom)) (rid cid : String) :
      MReach s → MReach (handleLeaveRoom s rid cid)
  | del (s : List (String × MRoom)) (rid : String) :
      MReach s → MReach (eraseKey rid s)

inductive IceResp where
  | ok : IceResp
  | peerNotFound : IceResp
  deriving DecidableEq, Repr

/-- `_handle_ice_candidate`: the only signaling-relay path of the source.
`peers` are the client ids holding a live `RTCPeerConnection`; `delivered`
records candidates handed to `addIceCandidate`, in order.  A message whose
`client_id` has no peer connection is answered with 404 `Peer not found`
and is dropped — the handler keeps no buffer of any kind. -/
def handleIceCandidate (peers : List String)
    (delivered : List (String × String)) (client_id candidate : String) :
    IceResp × List (String × String) :=
  if client_id ∈ peers then
    if candidate ≠ "" then
      (IceResp.ok, delivered ++ [(client_id, candidate)])
    else
      (IceResp.ok, delivered)
  else
    (IceResp.peerNotFound, delivered)

/-! ### Concrete test states -/

/-- A server state with room `r1` DJ'd by `a` (`last_seen_dj = 10`) and two
known clients `a` and `b`. -/
def sOneRoom : SState :=
  ⟨[("r1", ⟨"Disco", some "a", [], 10⟩)],
   [("a", ⟨"Al", some "r1", some "dj", 10⟩), ("b", ⟨"Bo", none, none, 10⟩)]⟩

/-- Like `sOneRoom` but with `b` joined to `r1` as a listener. -/
def sOneRoomL : SState :=
  ⟨[("r1", ⟨"Disco", some "a", ["b"], 10⟩)],
   [("a", ⟨"Al", some "r1", some "dj", 10⟩),
    ("b", ⟨"Bo", some "r1", some "listener", 10⟩)]⟩

/-! ### Helper lemmas -/

theorem lookupKey_setKey_self (k : String) (v : α) (l : List (String × α)) :
    lookupKey k (setKey k v l) = some v := by
  induction l with
  | nil => simp [setKey, lookupKey]
  | cons p rest ih =>
    obtain ⟨k', v'⟩ := p
    by_cases h : k' = k
    · simp [setKey, h, lookupKey]
    · simp [setKey, h, lookupKey, ih]

theorem lookupKey_setKey_ne (k k' : String) (v : α) (l : List (String × α))
    (h : k' ≠ k) : lookupKey k' (setKey k v l) = lookupKey k' l := by
  have hk : k ≠ k' := fun hh => h hh.symm
  induction l with
  | nil => simp [setKey, lookupKey, hk]
  | cons p rest ih =>
    obtain ⟨k₀, v₀⟩ := p
    by_cases h0 : k₀ = k
    · subst h0
      simp [setKey, lookupKey, hk]
    · simp only [setKey, h0, if_false]
      by_cases h1 : k₀ = k'
      · simp [lookupKey, h1]
      · simp [lookupKey, h1, ih]

theorem setKey_of_not_contains (k : String) (v : α) (l : List (String × α))
    (h : lookupKey k l = none) : setKey k v l = l ++ [(k, v)] := by
  induction l with
  | nil => simp [setKey]
  | cons p rest ih =>
    obtain ⟨k', v'⟩ := p
    by_cases h0 : k' = k
    · simp [lookupKey, h0] at h
    · simp only [lookupKey, h0, if_false] at h
      simp [setKey, h0, ih h]

theorem lookupKey_mem {k : String} {v : α} {l : List (String × α)}
    (h : lookupKey k l = some v) : (k, v) ∈ l := by
  induction l with
  | nil => simp [lookupKey] at h
  | cons p rest ih =>
    obtain ⟨k', v'⟩ := p
    by_cases h0 : k' = k
    · subst h0
      simp [lookupKey] at h
      simp [h]
    · simp only [lookupKey, h0, if_false] at h
      exact List.mem_cons_of_mem _ (ih h)

theorem recvFrame_timestamp (s : TrackState) :
    (recvFrame s).2.2.timestamp = s.timestamp + (recvFrame s).1.samples := by
  unfold recvFrame
  by_cases h : s.paused
  · simp [h]
  · cases hs : s.source with
    | nil => simp [h, hs]
    | cons f rest => simp [h, hs]

theorem recvFrame_pts (s : TrackState) : (recvFrame s).1.pts = s.timestamp := by
  unfold recvFrame
  by_cases h : s.paused
  · simp [h]
  · cases hs : s.source with
    | nil => simp [h, hs]
    | cons f rest => simp [h, hs]

theorem runTrack_chained (steps : List TrackStep) :
    ∀ s : TrackState, chainedFrom s.timestamp (runTrack s steps) = true := by
  induction steps with
  | nil => intro s; simp [runTrack, chainedFrom]
  | cons st rest ih =>
    intro s
    cases st with
    | recv =>
      have hts := recvFrame_timestamp s
      have hpts := recvFrame_pts s
      simp only [runTrack, chainedFrom, Bool.and_eq_true, beq_iff_eq]
      refine ⟨hpts, ?_⟩
      have := ih (recvFrame s).2.2
      rw [hts] at this
      exact this
    | pauseCmd b =>
      simp only [runTrack]
      have := ih (setTrackPaused b s)
      simpa [setTrackPaused] using this

theorem recvFrame_source_sub (s : TrackState) :
    ∀ x ∈ (recvFrame s).2.2.source, x ∈ s.source := by
  intro x hx
  unfold recvFrame at hx
  by_cases h : s.paused
  · simpa [h] using hx
  · cases hs : s.source with
    | nil => simp [h, hs] at hx
    | cons f rest =>
      simp only [h, hs, Bool.false_eq_true, if_false] at hx
      exact List.mem_cons_of_mem _ hx

theorem recvFrame_samples_pos (s : TrackState)
    (h : ∀ x ∈ s.source, 0 < x) : 0 < (recvFrame s).1.samples := by
  unfold recvFrame
  by_cases hp : s.paused
  · simp [hp]
  · cases hs : s.source with
    | nil => simp [hp, hs]
    | cons f rest =>
      simp only [hp, hs, Bool.false_eq_true, if_false]
      exact h f (by simp [hs])

theorem runTrack_samples_pos (steps : List TrackStep) :
    ∀ s : TrackState, (∀ x ∈ s.source, 0 < x) →
    ∀ f ∈ runTrack s steps, 0 < f.samples := by
  induction steps with
  | nil => intro s _ f hf; simp [runTrack] at hf
  | cons st rest ih =>
    intro s hs f hf
    cases st with
    | recv =>
      simp only [runTrack, List.mem_cons] at hf
      rcases hf with hf | hf
      · subst hf; exact recvFrame_samples_pos s hs
      · exact ih (recvFrame s).2.2
          (fun x hx => hs x (recvFrame_source_sub s x hx)) f hf
    | pauseCmd b =>
      simp only [runTrack] at hf
      exact ih (setTrackPaused b s) (fun x hx => hs x hx) f hf

theorem chained_strict_mono (fs : List Frame) :
    ∀ t : Nat, chainedFrom t fs = true → (∀ f ∈ fs, 0 < f.samples) →
    List.Chain' (fun a b => a.pts < b.pts) fs := by
  induction fs with
  | nil => intro t _ _; simp
  | cons f rest ih =>
    intro t hc hpos
    simp only [chainedFrom, Bool.and_eq_true, beq_iff_eq] at hc
    obtain ⟨hfp, hrest⟩ := hc
    cases rest with
    | nil => simp
    | cons g rest' =>
      refine List.Chain'.cons ?_
        (ih (t + f.samples) hrest (fun x hx => hpos x (List.mem_cons_of_mem _ hx)))
      simp only [chainedFrom, Bool.and_eq_true, beq_iff_eq] at hrest
      rw [hfp, hrest.1]
      have : 0 < f.samples := hpos f (List.mem_cons_self _ _)
      omega

theorem recvN_after_eof_logged (n : Nat) :
    ∀ s : TrackState, s.source = [] → s.paused = false → s.eofLogged = true →
    (∀ f ∈ (recvN n s).1, f.samples = 960) ∧ (recvN n s).2.1 = 0 := by
  induction n with
  | zero => intro s _ _ _; simp [recvN]
  | succ n ih =>
    intro s hsrc hp hl
    have hr : recvFrame s =
        (⟨s.timestamp, 960⟩, !s.eofLogged,
         { s with timestamp := s.timestamp + 960, eofLogged := true }) := by
      unfold recvFrame
      simp [hp, hsrc]
    have hnext := ih { s with timestamp := s.timestamp + 960, eofLogged := true }
      (by simp [hsrc]) (by simp [hp]) (by simp)
    constructor
    · intro f hf
      simp only [recvN, hr, List.mem_cons] at hf
      rcases hf with hf | hf
      · rw [hf]
      · exact hnext.1 f hf
    · simp only [recvN, hr, hl]
      simpa using hnext.2

theorem mem_setKey {p : String × α} {k : String} {v : α} {l : List (String × α)}
    (h : p ∈ setKey k v l) : p = (k, v) ∨ p ∈ l := by
  induction l with
  | nil => simpa [setKey] using h
  | cons q rest ih =>
    obtain ⟨k', v'⟩ := q
    by_cases h0 : k' = k
    · simp only [setKey, h0, if_true, List.mem_cons] at h
      rcases h with h | h
      · exact Or.inl h
      · exact Or.inr (List.mem_cons_of_mem _ h)
    · simp only [setKey, h0, if_false, List.mem_cons] at h
      rcases h with h | h
      · exact Or.inr (by simp [h])
      · rcases ih h with h' | h'
        · exact Or.inl h'
        · exact Or.inr (List.mem_cons_of_mem _ h')

theorem length_setKey_le (k : String) (v : α) (l : List (String × α)) :
    (setKey k v l).length ≤ l.length + 1 := by
  induction l with
  | nil => simp [setKey]
  | cons q rest ih =>
    obtain ⟨k', v'⟩ := q
    by_cases h0 : k' = k
    · simp [setKey, h0]
    · simp only [setKey, h0, if_false, List.length_cons]
      omega

theorem mem_eraseKey {p : String × α} {k : String} {l : List (String × α)}
    (h : p ∈ eraseKey k l) : p ∈ l := by
  induction l with
  | nil => simp [eraseKey] at h
  | cons q rest ih =>
    obtain ⟨k', v'⟩ := q
    by_cases h0 : k' = k
    · simp only [eraseKey, h0, if_true] at h
      exact List.mem_cons_of_mem _ h
    · simp only [eraseKey, h0, if_false, List.mem_cons] at h
      rcases h with h | h
      · simp [h]
      · exact List.mem_cons_of_mem _ (ih h)

theorem length_eraseKey_le (k : String) (l : List (String × α)) :
    (eraseKey k l).length ≤ l.length := by
  induction l with
  | nil => simp [eraseKey]
  | cons q rest ih =>
    obtain ⟨k', v'⟩ := q
    by_cases h0 : k' = k
    · simp [eraseKey, h0]
    · simp only [eraseKey, h0, if_false, List.length_cons]
      omega

theorem find?_append_of_none {p : α → Bool} {l1 l2 : List α}
    (h : l1.find? p = none) : (l1 ++ l2).find? p = l2.find? p := by
  induction l1 with
  | nil => simp
  | cons a l ih =>
    cases hpa : p a with
    | true => rw [List.find?_cons_of_pos _ hpa] at h; exact absurd h (by simp)
    | false =>
      rw [List.find?_cons_of_neg _ (by simp [hpa])] at h
      rw [List.cons_append, List.find?_cons_of_neg _ (by simp [hpa])]
      exact ih h

theorem mem_addSet_of_mem {c x : String} {l : List String} (h : c ∈ l) :
    c ∈ addSet x l := by
  unfold addSet
  split
  · exact h
  · exact List.mem_append_left _ h

theorem pyDjOnline_iff {now ls : Rat} (h35 : (35 : Rat) ≤ now) :
    pyDjOnline now ls = true ↔ now - ls < 35 := by
  unfold pyDjOnline
  by_cases h : ls = 0
  · subst h
    simp only [if_true, if_pos rfl]
    constructor
    · intro hh; exact absurd hh (by simp)
    · intro hh; linarith
  · simp [h]

theorem apiPresence_dj_update (s : SState) (cid rid : String) (now : Rat)
    (room : SRoom) (hr : lookupKey rid s.rooms = some room) :
    lookupKey rid (apiPresence s cid rid "dj" now).rooms =
      some { room with last_seen_dj := now } := by
  unfold apiPresence
  dsimp only
  rw [hr]
  dsimp only
  rw [if_pos rfl]
  exact lookupKey_setKey_self _ _ _

theorem apiPresence_other_role (s : SState) (cid rid role : String) (now : Rat)
    (hrole : role ≠ "dj") :
    (apiPresence s cid rid role now).rooms = s.rooms := by
  unfold apiPresence
  dsimp only
  cases lookupKey rid s.rooms with
  | none => rfl
  | some room =>
    dsimp only
    rw [if_neg hrole]

theorem apiIdentify_rooms (s : SState) (reuse_id reqName : Option String)
    (freshId genName : String) (now : Rat) :
    (apiIdentify s reuse_id reqName freshId genName now).2.rooms = s.rooms := by
  unfold apiIdentify
  rcases reuse_id with _ | rid
  · rfl
  · dsimp only
    split
    · cases lookupKey rid s.clients <;> rfl
    · rfl

/-! ### Claim theorems -/

/-- C1: for every interleaving of `recv` and `set_paused` calls on a room's
shared `PausableAudioTrack`, the sample-position counter starts at 0, each
emitted frame (real or silence) carries the counter as its `pts` and the
counter then advances by exactly that frame's sample count, so (for real
frames of positive sample count) consecutive emitted timestamps are
strictly increasing with no jump or rollback at any pause/resume boundary. -/
theorem C1_timestamp_monotonic (src : List Nat) (steps : List TrackStep)
    (hpos : ∀ x ∈ src, 0 < x) :
    chainedFrom 0 (runTrack (initTrack src) steps) = true ∧
    List.Chain' (fun a b => a.pts < b.pts) (runTrack (initTrack src) steps) := by
  have hc := runTrack_chained steps (initTrack src)
  have h0 : (initTrack src).timestamp = 0 := rfl
  rw [h0] at hc
  exact ⟨hc, chained_strict_mono _ 0 hc
    (runTrack_samples_pos steps (initTrack src) hpos)⟩

/-- C1 witness: a concrete run of two real frames around a pause/resume
boundary with further pulls past end of source. -/
theorem C1_timestamp_monotonic_witness :
    chainedFrom 0 (runTrack (initTrack [100, 3])
      [TrackStep.recv, TrackStep.pauseCmd true, TrackStep.recv,
       TrackStep.pauseCmd false, TrackStep.recv, TrackStep.recv,
       TrackStep.recv]) = true ∧
    List.Chain' (fun a b => a.pts < b.pts) (runTrack (initTrack [100, 3])
      [TrackStep.recv, TrackStep.pauseCmd true, TrackStep.recv,
       TrackStep.pauseCmd false, TrackStep.recv, TrackStep.recv,
       TrackStep.recv]) :=
  C1_timestamp_monotonic [100, 3]
    [TrackStep.recv, TrackStep.pauseCmd true, TrackStep.recv,
     TrackStep.pauseCmd false, TrackStep.recv, TrackStep.recv,
     TrackStep.recv] (by decide)

/-- C8: once the underlying source is exhausted (and the track is not
paused and the transition not yet logged), every subsequent `recv` emits a
960-sample silence frame at the same cadence, the end-of-source transition
is logged exactly once across all subsequent frame requests, and a frame
pull never changes the room's `is_playing` flag — only the explicit
play/pause handlers do. -/
theorem C8_eof_silence (n : Nat) (s : TrackState)
    (hsrc : s.source = []) (hp : s.paused = false) (hl : s.eofLogged = false) :
    (∀ f ∈ (recvN n s).1, f.samples = 960) ∧
    (recvN n s).2.1 = min n 1 ∧
    (∀ r : MainPlayback, (playbackRecv r).2.2.is_playing = r.is_playing) := by
  have hr : recvFrame s =
      (⟨s.timestamp, 960⟩, true,
       { s with timestamp := s.timestamp + 960, eofLogged := true }) := by
    unfold recvFrame
    simp [hp, hsrc, hl]
  refine ⟨?_, ?_, fun r => rfl⟩
  · intro f hf
    cases n with
    | zero => simp [recvN] at hf
    | succ n =>
      have hnext := recvN_after_eof_logged n
        { s with timestamp := s.timestamp + 960, eofLogged := true }
        (by simp [hsrc]) (by simp [hp]) (by simp)
      simp only [recvN, hr, List.mem_cons] at hf
      rcases hf with hf | hf
      · rw [hf]
      · exact hnext.1 f hf
  · cases n with
    | zero => simp [recvN]
    | succ n =>
      have hnext := recvN_after_eof_logged n
        { s with timestamp := s.timestamp + 960, eofLogged := true }
        (by simp [hsrc]) (by simp [hp]) (by simp)
      simp only [recvN, hr]
      rw [hnext.2]
      simp

/-- C8 witness: three pulls after exhaustion at counter 480. -/
theorem C8_eof_silence_witness :
    (∀ f ∈ (recvN 3 ⟨false, 480, [], false⟩).1, f.samples = 960) ∧
    (recvN 3 ⟨false, 480, [], false⟩).2.1 = min 3 1 ∧
    (∀ r : MainPlayback, (playbackRecv r).2.2.is_playing = r.is_playing) :=
  C8_eof_silence 3 ⟨false, 480, [], false⟩ rfl rfl rfl

/-- C2: `api_room_create` is idempotent per identity.  For a known client
owning no room, a create with a fresh id installs a new room with that
client as DJ and an empty listener set; a second create from the same
client — with any name — answers the same `room_id` with `existing = true`
and leaves the room map unchanged. -/
theorem C2_create_idempotent (s : SState) (cid : String)
    (name1 name2 : Option String) (fresh1 fresh2 : String) (now1 now2 : Rat)
    (hc : (lookupKey cid s.clients).isSome = true)
    (hno : ∀ p ∈ s.rooms, p.2.dj_client ≠ some cid)
    (hfresh : lookupKey fresh1 s.rooms = none) :
    (apiRoomCreate s cid name1 fresh1 now1).1 = CreateResp.ok fresh1 false ∧
    lookupKey fresh1 (apiRoomCreate s cid name1 fresh1 now1).2.rooms =
      some (createdRoom name1 cid now1) ∧
    (apiRoomCreate (apiRoomCreate s cid name1 fresh1 now1).2 cid name2 fresh2
        now2).1 = CreateResp.ok fresh1 true ∧
    (apiRoomCreate (apiRoomCreate s cid name1 fresh1 now1).2 cid name2 fresh2
        now2).2.rooms = (apiRoomCreate s cid name1 fresh1 now1).2.rooms := by
  have hfind : s.rooms.find? (fun p => decide (p.2.dj_client = some cid)) = none := by
    rw [List.find?_eq_none]
    intro p hp
    simpa using hno p hp
  have h1 :
      apiRoomCreate s cid name1 fresh1 now1 =
        (CreateResp.ok fresh1 false,
         { rooms := setKey fresh1 (createdRoom name1 cid now1) s.rooms,
           clients := updClientRole cid fresh1 "dj" s.clients }) := by
    unfold apiRoomCreate
    rw [hc, hfind]
    rfl
  obtain ⟨c, hcc⟩ := Option.isSome_iff_exists.mp hc
  have hclients : updClientRole cid fresh1 "dj" s.clients =
      setKey cid { c with room_id := some fresh1, role := some "dj" } s.clients := by
    unfold updClientRole
    rw [hcc]
  have hc1 :
      (lookupKey cid (updClientRole cid fresh1 "dj" s.clients)).isSome = true := by
    rw [hclients, lookupKey_setKey_self]
    rfl
  have hrooms1 : setKey fresh1 (createdRoom name1 cid now1) s.rooms =
      s.rooms ++ [(fresh1, createdRoom name1 cid now1)] :=
    setKey_of_not_contains _ _ _ hfresh
  have hfind2 :
      (setKey fresh1 (createdRoom name1 cid now1) s.rooms).find?
        (fun p => decide (p.2.dj_client = some cid)) =
        some (fresh1, createdRoom name1 cid now1) := by
    rw [hrooms1, find?_append_of_none hfind]
    simp [createdRoom]
  have h2 :
      apiRoomCreate (apiRoomCreate s cid name1 fresh1 now1).2 cid name2 fresh2
          now2 =
        (CreateResp.ok fresh1 true,
         { rooms := setKey fresh1 (createdRoom name1 cid now1) s.rooms,
           clients := updClientRole cid fresh1 "dj"
             (updClientRole cid fresh1 "dj" s.clients) }) := by
    rw [h1]
    unfold apiRoomCreate
    rw [hc1, hfind2]
    rfl
  refine ⟨by rw [h1], ?_, by rw [h2], by rw [h2, h1]⟩
  rw [h1]
  exact lookupKey_setKey_self _ _ _

/-- C2 witness: identity `a` creates twice; the second call reuses room
`r1` and creates nothing. -/
theorem C2_create_idempotent_witness :
    (apiRoomCreate ⟨[], [("a", ⟨"Al", none, none, 1⟩)]⟩ "a" (some "Test") "r1"
        5).1 = CreateResp.ok "r1" false ∧
    lookupKey "r1" (apiRoomCreate ⟨[], [("a", ⟨"Al", none, none, 1⟩)]⟩ "a"
        (some "Test") "r1" 5).2.rooms = some (createdRoom (some "Test") "a" 5) ∧
    (apiRoomCreate (apiRoomCreate ⟨[], [("a", ⟨"Al", none, none, 1⟩)]⟩ "a"
        (some "Test") "r1" 5).2 "a" (some "Other") "r2" 6).1 =
      CreateResp.ok "r1" true ∧
    (apiRoomCreate (apiRoomCreate ⟨[], [("a", ⟨"Al", none, none, 1⟩)]⟩ "a"
        (some "Test") "r1" 5).2 "a" (some "Other") "r2" 6).2.rooms =
      (apiRoomCreate ⟨[], [("a", ⟨"Al", none, none, 1⟩)]⟩ "a" (some "Test") "r1"
        5).2.rooms :=
  C2_create_idempotent ⟨[], [("a", ⟨"Al", none, none, 1⟩)]⟩ "a" (some "Test")
    (some "Other") "r1" "r2" 5 6 rfl (by simp) rfl

/-- C3: a `role = "dj"` join of an existing room by a known client succeeds
exactly when the room has no DJ or this client already is the DJ (the
room's DJ and liveness are then refreshed); a DJ join by any other
identity answers 409 `dj_conflict` and leaves the whole state — in
particular the room's DJ — unchanged. -/
theorem C3_dj_admission (s : SState) (rid cid : String) (room : SRoom)
    (now : Rat) (hc : (lookupKey cid s.clients).isSome = true)
    (hr : lookupKey rid s.rooms = some room) :
    ((room.dj_client = none ∨ room.dj_client = some cid) →
       (apiRoomJoin s rid cid "dj" now).1 = JoinResp.ok room.name ∧
       lookupKey rid (apiRoomJoin s rid cid "dj" now).2.rooms =
         some { room with dj_client := some cid, last_seen_dj := now }) ∧
    (room.dj_client ≠ none → room.dj_client ≠ some cid →
       apiRoomJoin s rid cid "dj" now = (JoinResp.djConflict, s)) := by
  unfold apiRoomJoin
  rw [hc, hr]
  simp only [if_true, if_pos rfl]
  constructor
  · intro hd
    rw [if_pos hd]
    exact ⟨rfl, lookupKey_setKey_self _ _ _⟩
  · intro h1 h2
    rw [if_neg (by rintro (h | h); exacts [h1 h, h2 h])]

/-- C3 witness: with `a` holding the DJ slot of `r1`, `a` rejoins as DJ
successfully while `b`'s DJ join is refused with `dj_conflict` and the
state is untouched. -/
theorem C3_dj_admission_witness :
    ((apiRoomJoin ⟨[("r1", ⟨"D", some "a", [], 1⟩)],
        [("a", ⟨"Al", none, none, 1⟩), ("b", ⟨"Bo", none, none, 1⟩)]⟩
        "r1" "a" "dj" 9).1 = JoinResp.ok "D" ∧
     lookupKey "r1" (apiRoomJoin ⟨[("r1", ⟨"D", some "a", [], 1⟩)],
        [("a", ⟨"Al", none, none, 1⟩), ("b", ⟨"Bo", none, none, 1⟩)]⟩
        "r1" "a" "dj" 9).2.rooms = some ⟨"D", some "a", [], 9⟩) ∧
    apiRoomJoin ⟨[("r1", ⟨"D", some "a", [], 1⟩)],
        [("a", ⟨"Al", none, none, 1⟩), ("b", ⟨"Bo", none, none, 1⟩)]⟩
        "r1" "b" "dj" 9 =
      (JoinResp.djConflict,
       ⟨[("r1", ⟨"D", some "a", [], 1⟩)],
        [("a", ⟨"Al", none, none, 1⟩), ("b", ⟨"Bo", none, none, 1⟩)]⟩) :=
  ⟨(C3_dj_admission ⟨[("r1", ⟨"D", some "a", [], 1⟩)],
        [("a", ⟨"Al", none, none, 1⟩), ("b", ⟨"Bo", none, none, 1⟩)]⟩
        "r1" "a" ⟨"D", some "a", [], 1⟩ 9 rfl rfl).1 (Or.inr rfl),
   (C3_dj_admission ⟨[("r1", ⟨"D", some "a", [], 1⟩)],
        [("a", ⟨"Al", none, none, 1⟩), ("b", ⟨"Bo", none, none, 1⟩)]⟩
        "r1" "b" ⟨"D", some "a", [], 1⟩ 9 rfl rfl).2 (by simp) (by simp)⟩

/-- C4 counterexample: in `sOneRoom` the DJ of `r1` is `a`, yet a
heartbeat from the unrelated client `b` claiming `role = "dj"` for `r1`
overwrites the room's `last_seen_dj` (10 becomes 100), where the claim
says it must be left unchanged. -/
theorem C4_counterexample :
    (lookupKey "r1" sOneRoom.rooms).map SRoom.dj_client = some (some "a") ∧
    ("b" : String) ≠ "a" ∧
    (lookupKey "r1" sOneRoom.rooms).map SRoom.last_seen_dj = some 10 ∧
    (lookupKey "r1" (apiPresence sOneRoom "b" "r1" "dj" 100).rooms).map
      SRoom.last_seen_dj = some 100 ∧
    (100 : Rat) ≠ 10 := by decide

/-- C4 (amended): a heartbeat with `role = "dj"` naming an existing room
updates that room's `last_seen_dj` to `now` regardless of which client
sends it — `api_presence` never compares the sender with the room's
`dj_client` — while a heartbeat with any other role leaves the room map
unchanged; the endpoint always answers ok. -/
theorem C4_presence_blind_dj_update (s : SState) (cid rid : String)
    (now : Rat) (room : SRoom) (hr : lookupKey rid s.rooms = some room) :
    lookupKey rid (apiPresence s cid rid "dj" now).rooms =
      some { room with last_seen_dj := now } ∧
    (∀ role, role ≠ "dj" → (apiPresence s cid rid role now).rooms = s.rooms) :=
  ⟨apiPresence_dj_update s cid rid now room hr,
   fun role hrole => apiPresence_other_role s cid rid role now hrole⟩

/-- C4 amended witness: the non-DJ `b` heartbeating as DJ for `r1`. -/
theorem C4_presence_blind_dj_update_witness :
    lookupKey "r1" (apiPresence sOneRoom "b" "r1" "dj" 100).rooms =
      some ⟨"Disco", some "a", [], 100⟩ ∧
    (∀ role, role ≠ "dj" →
      (apiPresence sOneRoom "b" "r1" role 100).rooms = sOneRoom.rooms) :=
  C4_presence_blind_dj_update sOneRoom "b" "r1" 100 ⟨"Disco", some "a", [], 10⟩ rfl

/-- C5 counterexample: `a` (the DJ) closes `r1` in `sOneRoomL`
successfully, yet the emitted effect trace is deletion followed by a
directory-level rooms-list broadcast and contains no `room_closed` event
to any room member, where the claim requires a `room_closed` fanout to
every member before the record is deleted. -/
theorem C5_counterexample :
    (apiRoomClose sOneRoomL "r1" "a").1 = CloseResp.ok ∧
    (apiRoomClose sOneRoomL "r1" "a").2.2 =
      [SEvent.deleteRoom "r1", SEvent.roomsUpdate] ∧
    ((apiRoomClose sOneRoomL "r1" "a").2.2.all fun e => !e.isRoomClosed) = true := by
  decide

/-- C5 (amended): `api_room_close` answers `not_found` for an unknown room
and `forbidden` when the known requester is not the room's DJ, leaving the
state untouched; when the requester is the DJ it deletes the room record
first and broadcasts the directory-level rooms-list update second, and in
no case is a `room_closed` event sent to room members. -/
theorem C5_close_authorization (s : SState) (rid cid : String) :
    (lookupKey rid s.rooms = none →
       apiRoomClose s rid cid = (CloseResp.notFound, s, [])) ∧
    (∀ room, lookupKey rid s.rooms = some room →
       (lookupKey cid s.clients).isSome = true → room.dj_client ≠ some cid →
       apiRoomClose s rid cid = (CloseResp.forbidden, s, [])) ∧
    (∀ room, lookupKey rid s.rooms = some room →
       (lookupKey cid s.clients).isSome = true → room.dj_client = some cid →
       apiRoomClose s rid cid =
         (CloseResp.ok, { s with rooms := eraseKey rid s.rooms },
          [SEvent.deleteRoom rid, SEvent.roomsUpdate])) ∧
    (∀ e ∈ (apiRoomClose s rid cid).2.2, e.isRoomClosed = false) := by
  refine ⟨?_, ?_, ?_, ?_⟩
  · intro h
    unfold apiRoomClose
    rw [h]
  · intro room hr hc hne
    unfold apiRoomClose
    rw [hr]
    dsimp only
    rw [hc]
    rw [if_pos rfl, if_neg hne]
  · intro room hr hc hdj
    unfold apiRoomClose
    rw [hr]
    dsimp only
    rw [hc]
    rw [if_pos rfl, if_pos hdj]
  · intro e he
    unfold apiRoomClose at he
    split at he
    · simp at he
    · split at he
      · split at he
        · simp only [List.mem_cons, List.not_mem_nil, or_false] at he
          rcases he with h | h <;> subst h <;> rfl
        · simp at he
      · simp at he

/-- C5 amended witness: unknown room, non-DJ requester and DJ requester,
each at a concrete state. -/
theorem C5_close_authorization_witness :
    apiRoomClose sOneRoomL "zz" "a" = (CloseResp.notFound, sOneRoomL, []) ∧
    apiRoomClose sOneRoomL "r1" "b" = (CloseResp.forbidden, sOneRoomL, []) ∧
    apiRoomClose sOneRoomL "r1" "a" =
      (CloseResp.ok, { sOneRoomL with rooms := eraseKey "r1" sOneRoomL.rooms },
       [SEvent.deleteRoom "r1", SEvent.roomsUpdate]) :=
  ⟨(C5_close_authorization sOneRoomL "zz" "a").1 rfl,
   (C5_close_authorization sOneRoomL "r1" "b").2.1
     ⟨"Disco", some "a", ["b"], 10⟩ rfl rfl (by simp),
   (C5_close_authorization sOneRoomL "r1" "a").2.2.1
     ⟨"Disco", some "a", ["b"], 10⟩ rfl rfl rfl⟩

/-- C6 counterexample: with no peer connection registered for `b`, the
ICE-candidate relay answers 404 `Peer not found` and delivers nothing —
it rejects the message instead of buffering it for `b`'s next attach as
the claim requires. -/
theorem C6_counterexample :
    handleIceCandidate [] [] "b" "cand1" = (IceResp.peerNotFound, []) ∧
    (handleIceCandidate [] [] "b" "cand1").1 ≠ IceResp.ok := by decide

/-- C6 (amended): a signaling (ICE-candidate) message whose recipient has
no registered peer connection is rejected with 404 `Peer not found` and
dropped: nothing is delivered and the handler keeps no buffer, so no
buffer-then-flush ordering path exists. -/
theorem C6_relay_rejects_unattached (peers : List String)
    (delivered : List (String × String)) (cid cand : String)
    (h : cid ∉ peers) :
    handleIceCandidate peers delivered cid cand =
      (IceResp.peerNotFound, delivered) := by
  unfold handleIceCandidate
  rw [if_neg h]

/-- C6 amended witness. -/
theorem C6_relay_rejects_unattached_witness :
    handleIceCandidate [] [] "b" "cand1" = (IceResp.peerNotFound, []) :=
  C6_relay_rejects_unattached [] [] "b" "cand1" (by simp)

/-- C7: for any real clock value (`time.time() ≥ 35`), the room summary's
`dj_online` flag is true exactly when `now - last_seen_dj < 35`; in
particular a publisher silent for at least 35 seconds is reported offline,
and a fresh `role = "dj"` heartbeat (from any client) makes the flag true
again at the same instant. -/
theorem C7_staleness (s : SState) (now : Rat) (rid : String) (room : SRoom)
    (h35 : (35 : Rat) ≤ now) (hr : lookupKey rid s.rooms = some room) :
    (∃ e ∈ getRoomsData s now, e.id = rid ∧
       (e.dj_online = true ↔ now - room.last_seen_dj < 35) ∧
       (35 ≤ now - room.last_seen_dj → e.dj_online = false)) ∧
    (∀ cid, ∃ room',
       lookupKey rid (apiPresence s cid rid "dj" now).rooms = some room' ∧
       pyDjOnline now room'.last_seen_dj = true) := by
  constructor
  · refine ⟨summarize s.clients now (rid, room),
      List.mem_map_of_mem _ (lookupKey_mem hr), rfl, pyDjOnline_iff h35, ?_⟩
    intro hge
    cases hb : pyDjOnline now room.last_seen_dj with
    | false => exact hb
    | true => exact absurd ((pyDjOnline_iff h35).mp hb) (by linarith)
  · intro cid
    refine ⟨{ room with last_seen_dj := now },
      apiPresence_dj_update s cid rid now room hr, ?_⟩
    show pyDjOnline now now = true
    unfold pyDjOnline
    rw [if_neg (by intro h0; rw [h0] at h35; linarith)]
    have hlt : now - now < 35 := by linarith
    simp [hlt]

/-- C7 witness: `r1` with `last_seen_dj = 10` read at `now = 100` (stale,
offline) and refreshed by a heartbeat at 100 (online again). -/
theorem C7_staleness_witness :
    ((35 : Rat) ≤ 100) ∧
    ((∃ e ∈ getRoomsData sOneRoom 100, e.id = "r1" ∧
        (e.dj_online = true ↔ (100 : Rat) - 10 < 35) ∧
        (35 ≤ (100 : Rat) - 10 → e.dj_online = false)) ∧
     (∀ cid, ∃ room',
        lookupKey "r1" (apiPresence sOneRoom cid "r1" "dj" 100).rooms =
          some room' ∧
        pyDjOnline 100 room'.last_seen_dj = true)) :=
  ⟨by norm_num,
   C7_staleness sOneRoom 100 "r1" ⟨"Disco", some "a", [], 10⟩ (by norm_num) rfl⟩

/-- C9: in every server state reachable through the create/join/leave/
delete room handlers of `SilentDiscoServer`, every room has
`max_capacity = 50` and at most 50 connected clients; moreover a join
aimed at a room whose connected-client count has reached its capacity is
answered `Room is full` and leaves the room map unchanged. -/
theorem C9_capacity (s : List (String × MRoom)) (h : MReach s) :
    (∀ p ∈ s, p.2.max_capacity = 50 ∧ p.2.connected_clients.length ≤ 50) ∧
    (∀ rid room cid fp, lookupKey rid s = some room →
       room.max_capacity ≤ room.connected_clients.length →
       handleJoinRoom s rid cid fp = (MJoinResp.roomFull, s)) := by
  constructor
  · induction h with
    | start => simp
    | create s' rid dj _ ih =>
      intro p hp
      rcases mem_setKey hp with h | h
      · subst h
        exact ⟨rfl, by simp [mkMRoom]⟩
      · exact ih p h
    | join s' rid cid fp _ ih =>
      intro p
      unfold handleJoinRoom
      cases hlr : lookupKey rid s' with
      | none => exact fun hp => ih p hp
      | some room =>
        dsimp only
        by_cases hfull : room.max_capacity ≤ room.connected_clients.length
        · rw [if_pos hfull]
          exact fun hp => ih p hp
        · rw [if_neg hfull]
          intro hp
          rcases mem_setKey hp with h | h
          · have hroom := ih (rid, room) (lookupKey_mem hlr)
            subst h
            refine ⟨hroom.1, ?_⟩
            have h1 := length_setKey_le cid
              ⟨fp, if fp = room.dj_fingerprint then "dj" else "listener"⟩
              room.connected_clients
            have h2 := hroom.1
            have h3 := hroom.2
            dsimp only at h1 h2 h3 ⊢
            omega
          · exact ih p h
    | leave s' rid cid _ ih =>
      intro p
      unfold handleLeaveRoom
      cases hlr : lookupKey rid s' with
      | none => exact fun hp => ih p hp
      | some room =>
        dsimp only
        by_cases hin : containsKey cid room.connected_clients = true
        · rw [if_pos hin]
          intro hp
          rcases mem_setKey hp with h | h
          · have hroom := ih (rid, room) (lookupKey_mem hlr)
            subst h
            refine ⟨hroom.1, ?_⟩
            have h1 := length_eraseKey_le cid room.connected_clients
            have h2 := hroom.2
            dsimp only at h1 h2 ⊢
            omega
          · exact ih p h
        · rw [if_neg hin]
          exact fun hp => ih p hp
    | del s' rid _ ih =>
      exact fun p hp => ih p (mem_eraseKey hp)
  · intro rid room cid fp hlr hfull
    unfold handleJoinRoom
    rw [hlr]
    dsimp only
    rw [if_pos hfull]

/-- C9 witness: the state reached by creating room `r1` and joining client
`c1` satisfies the capacity invariant. -/
theorem C9_capacity_witness :
    ((⟨"dj1", 50, [("c1", ⟨"f1", "listener"⟩)]⟩ : MRoom).max_capacity = 50 ∧
     (⟨"dj1", 50, [("c1", ⟨"f1", "listener"⟩)]⟩ :
        MRoom).connected_clients.length ≤ 50) := by
  have h2 := MReach.join (setKey "r1" (mkMRoom "dj1") []) "r1" "c1" "f1"
    (MReach.create [] "r1" "dj1" MReach.start)
  exact (C9_capacity _ h2).1 ("r1", ⟨"dj1", 50, [("c1", ⟨"f1", "listener"⟩)]⟩)
    (by decide)

/-- C10: no operation of the API module removes an individual client from
a room's listener set: once `c` is a listener of room `rid`, it is still a
listener (and still counted by `listener_count`) after any identify,
create (of a distinct fresh room id), join, heartbeat or DJ-presence call,
and in every rooms-list summary; only `api_room_close` deletes the whole
room record. -/
theorem C10_listener_persistence (s : SState) (rid : String) (room : SRoom)
    (c : String) (hr : lookupKey rid s.rooms = some room)
    (hc : c ∈ room.listeners) :
    (∀ reuse_id reqName freshId genName now,
       lookupKey rid
         (apiIdentify s reuse_id reqName freshId genName now).2.rooms =
         some room) ∧
    (∀ cid nm freshId now, freshId ≠ rid →
       ∃ room', lookupKey rid (apiRoomCreate s cid nm freshId now).2.rooms =
           some room' ∧ c ∈ room'.listeners) ∧
    (∀ rid2 cid role now,
       ∃ room', lookupKey rid (apiRoomJoin s rid2 cid role now).2.rooms =
           some room' ∧ c ∈ room'.listeners) ∧
    (∀ cid rid2 role now,
       ∃ room', lookupKey rid (apiPresence s cid rid2 role now).rooms =
           some room' ∧ c ∈ room'.listeners) ∧
    (∀ rid2 online now,
       ∃ room', lookupKey rid (apiDjPresence s rid2 online now).2.rooms =
           some room' ∧ c ∈ room'.listeners) ∧
    (∀ now, ∃ e ∈ getRoomsData s now, e.id = rid ∧
       e.listener_count = room.listeners.length) := by
  refine ⟨?_, ?_, ?_, ?_, ?_, ?_⟩
  · intro reuse_id reqName freshId genName now
    rw [apiIdentify_rooms]
    exact hr
  · intro cid nm freshId now hne
    unfold apiRoomCreate
    by_cases hcs : (lookupKey cid s.clients).isSome = true
    · rw [if_pos hcs]
      cases hfind : s.rooms.find? (fun p => decide (p.2.dj_client = some cid)) with
      | some p => exact ⟨room, hr, hc⟩
      | none =>
        refine ⟨room, ?_, hc⟩
        dsimp only
        rw [lookupKey_setKey_ne _ _ _ _ (fun hh => hne hh.symm)]
        exact hr
    · rw [if_neg hcs]
      exact ⟨room, hr, hc⟩
  · intro rid2 cid role now
    unfold apiRoomJoin
    by_cases hcs : (lookupKey cid s.clients).isSome = true
    · rw [if_pos hcs]
      cases hlr2 : lookupKey rid2 s.rooms with
      | none => exact ⟨room, hr, hc⟩
      | some room2 =>
        dsimp only
        by_cases hrole : role = "dj"
        · rw [if_pos hrole]
          by_cases hdj : room2.dj_client = none ∨ room2.dj_client = some cid
          · rw [if_pos hdj]
            dsimp only
            by_cases hrr : rid = rid2
            · subst hrr
              rw [hr] at hlr2
              obtain rfl : room = room2 := Option.some.inj hlr2
              exact ⟨{ room with dj_client := some cid, last_seen_dj := now },
                lookupKey_setKey_self _ _ _, hc⟩
            · refine ⟨room, ?_, hc⟩
              rw [lookupKey_setKey_ne _ _ _ _ hrr]
              exact hr
          · rw [if_neg hdj]
            exact ⟨room, hr, hc⟩
        · rw [if_neg hrole]
          dsimp only
          by_cases hrr : rid = rid2
          · subst hrr
            rw [hr] at hlr2
            obtain rfl : room = room2 := Option.some.inj hlr2
            exact ⟨{ room with listeners := addSet cid room.listeners },
              lookupKey_setKey_self _ _ _, mem_addSet_of_mem hc⟩
          · refine ⟨room, ?_, hc⟩
            rw [lookupKey_setKey_ne _ _ _ _ hrr]
            exact hr
    · rw [if_neg hcs]
      exact ⟨room, hr, hc⟩
  · intro cid rid2 role now
    unfold apiPresence
    dsimp only
    cases hlr2 : lookupKey rid2 s.rooms with
    | none => exact ⟨room, hr, hc⟩
    | some room2 =>
      dsimp only
      by_cases hrole : role = "dj"
      · rw [if_pos hrole]
        by_cases hrr : rid = rid2
        · subst hrr
          rw [hr] at hlr2
          obtain rfl : room = room2 := Option.some.inj hlr2
          exact ⟨{ room with last_seen_dj := now },
            lookupKey_setKey_self _ _ _, hc⟩
        · refine ⟨room, ?_, hc⟩
          rw [lookupKey_setKey_ne _ _ _ _ hrr]
          exact hr
      · rw [if_neg hrole]
        exact ⟨room, hr, hc⟩
  · intro rid2 online now
    unfold apiDjPresence
    cases hlr2 : lookupKey rid2 s.rooms with
    | none => exact ⟨room, hr, hc⟩
    | some room2 =>
      dsimp only
      by_cases hrr : rid = rid2
      · subst hrr
        rw [hr] at hlr2
        obtain rfl : room = room2 := Option.some.inj hlr2
        exact ⟨{ room with last_seen_dj := if online then now else 0 },
          lookupKey_setKey_self _ _ _, hc⟩
      · refine ⟨room, ?_, hc⟩
        rw [lookupKey_setKey_ne _ _ _ _ hrr]
        exact hr
  · intro now
    exact ⟨summarize s.clients now (rid, room),
      List.mem_map_of_mem _ (lookupKey_mem hr), rfl, rfl⟩

/-- C10 witness: listener `b` of `r1` survives an identify, a fresh
create, a foreign DJ join, a heartbeat and a DJ-presence update, and is
counted in the summary. -/
theorem C10_listener_persistence_witness :
    (∀ reuse_id reqName freshId genName now,
       lookupKey "r1"
         (apiIdentify sOneRoomL reuse_id reqName freshId genName now).2.rooms =
         some ⟨"Disco", some "a", ["b"], 10⟩) ∧
    (∀ cid nm freshId now, freshId ≠ "r1" →
       ∃ room', lookupKey "r1"
           (apiRoomCreate sOneRoomL cid nm freshId now).2.rooms =
           some room' ∧ "b" ∈ room'.listeners) ∧
    (∀ rid2 cid role now,
       ∃ room', lookupKey "r1" (apiRoomJoin sOneRoomL rid2 cid role now).2.rooms =
           some room' ∧ "b" ∈ room'.listeners) ∧
    (∀ cid rid2 role now,
       ∃ room', lookupKey "r1" (apiPresence sOneRoomL cid rid2 role now).rooms =
           some room' ∧ "b" ∈ room'.listeners) ∧
    (∀ rid2 online now,
       ∃ room', lookupKey "r1" (apiDjPresence sOneRoomL rid2 online now).2.rooms =
           some room' ∧ "b" ∈ room'.listeners) ∧
    (∀ now, ∃ e ∈ getRoomsData sOneRoomL now, e.id = "r1" ∧
       e.listener_count = (["b"] : List String).length) :=
  C10_listener_persistence sOneRoomL "r1" ⟨"Disco", some "a", ["b"], 10⟩ "b"
    rfl (by simp)

end HushFm
